import Mathlib

/-!
Shallow embedding of the scalar operator evaluator of the const-evaluation
interpreter (`src/librustc_mir/interpret/operator.rs`), together with proofs
of the specified properties of `binary_int_op`, `binary_float_op`,
`binary_char_op`, `binary_bool_op` and `unary_op`.

Conventions of the embedding:
- `u128` raw bit patterns are `Nat` values; the points where the source relies
  on fixed-width wraparound carry an explicit `% 2 ^ 128`.
- `i128` values are `Int` values; the wrapping casts `as u128` / `as i128`
  are the explicit functions `wrap128` / `wrapI128`.
- The `bug!` abort macro (an internal-consistency failure, which panics in the
  source) is modelled as the distinguished error constructor `EvalError.Bug`,
  kept separate from the recoverable reported failures.
- Fallible code returns `Except EvalError`.
-/

set_option maxRecDepth 4000

deriving instance DecidableEq for Except

namespace Operator

/-- The floating point formats of the evaluator (`FloatTy` from the frontend AST). -/
inductive FloatTy
  | F32
  | F64
deriving DecidableEq

/-- Binary operators (`rustc::mir::BinOp`).  `Offset` is the pointer-offset
operator; it reaches the final catch-all arm of `binary_int_op`. -/
inductive BinOp
  | Add
  | Sub
  | Mul
  | Div
  | Rem
  | BitXor
  | BitAnd
  | BitOr
  | Shl
  | Shr
  | Eq
  | Lt
  | Le
  | Ne
  | Ge
  | Gt
  | Offset
deriving DecidableEq

/-- Unary operators (`rustc::mir::UnOp`). -/
inductive UnOp
  | Not
  | Neg
deriving DecidableEq

/-- Type identity of an operand (`rustc::ty`), restricted to the categories the
evaluator distinguishes.  `int n` / `uint n` carry the nominal bit width so
that distinct integer types have distinct identities. -/
inductive Ty
  | bool
  | char
  | float (fty : FloatTy)
  | int (n : Nat)
  | uint (n : Nat)
  | rawPtr
  | fnPtr
deriving DecidableEq

/-- Embeds `ty.is_integral()`: integer types only (not bool, not char, not float). -/
def Ty.is_integral : Ty → Bool
  | Ty.int _ => true
  | Ty.uint _ => true
  | _ => false

/-- The type layout of an operand (`rustc::ty::layout::TyLayout`): declared
size in bytes, `abi.is_signed()`, and the type identity. -/
structure TyLayout where
  ty : Ty
  size : Nat
  signed : Bool
deriving DecidableEq

/-- Scalar values (`rustc::mir::interpret::Scalar`): either a raw bit pattern
with its declared size in bytes, or a pointer (left abstract here; the evaluator
never constructs one). -/
inductive Scalar
  | Bits (bits : Nat) (size : Nat)
  | Ptr
deriving DecidableEq

/-- Embeds `Scalar::from_bool`. -/
def Scalar.from_bool (b : Bool) : Scalar :=
  Scalar.Bits (if b then 1 else 0) 1

/-- Errors.  `DivisionByZero`, `RemainderByZero`, `Unimplemented` and the
scalar-decoding errors are reported, recoverable failures; `Bug` models the
`bug!` / failed-assertion aborts (internal-consistency failures). -/
inductive EvalError
  | DivisionByZero
  | RemainderByZero
  | Unimplemented (msg : String)
  | InvalidBool
  | InvalidChar
  | ReadPointerAsBytes
  | Bug (msg : String)
deriving DecidableEq

/-- Embeds `Scalar::to_bits(target_size)`: a `Bits` scalar yields its raw pattern when
the stored size matches the requested one and is nonzero (both checked by
assertions in the source); pointers are a reported failure. -/
def Scalar.to_bits (s : Scalar) (size : Nat) : Except EvalError Nat :=
  match s with
  | Scalar.Bits b sz =>
      if sz = size ∧ sz ≠ 0 then Except.ok b
      else Except.error (EvalError.Bug "to_bits size mismatch")
  | Scalar.Ptr => Except.error EvalError.ReadPointerAsBytes

/-- Embeds `Scalar::to_bool`. -/
def Scalar.to_bool (s : Scalar) : Except EvalError Bool :=
  match s with
  | Scalar.Bits 0 1 => Except.ok false
  | Scalar.Bits 1 1 => Except.ok true
  | _ => Except.error EvalError.InvalidBool

/-- Values (`super::Value`), as far as the result writers use them: a single
scalar, or the pair written by `binop_with_overflow`. -/
inductive Value
  | Scalar (s : Operator.Scalar)
  | ScalarPair (a b : Operator.Scalar)
deriving DecidableEq

/-- The packaging step of `binop_with_overflow` (source line 32): a binary
result `(val, overflowed)` is persisted as
`Value::ScalarPair(val, Scalar::from_bool(overflowed))`. -/
def with_overflow_pair (p : Scalar × Bool) : Value :=
  Value.ScalarPair p.1 (Scalar.from_bool p.2)

/-- Whether an evaluation result, seen as a `Value`, is a `(value, overflow)`
scalar pair. -/
def result_is_pair : Except EvalError Value → Bool
  | Except.ok (Value.ScalarPair _ _) => true
  | _ => false

/-- Modelled from the spec (section 6, Glossary): the externally supplied
`truncate` numeric primitive — mask a value down to the declared bit width
of its layout. -/
def truncate (v : Nat) (layout : TyLayout) : Nat :=
  v % 2 ^ (8 * layout.size)

/-- Modelled from the spec (section 6, Glossary): the externally supplied
`sign_extend` primitive composed with the `as i128` cast the evaluator always
applies to it — reproduce the mathematical value of a truncated bit pattern as
a full-width signed integer using the width of its layout. -/
def sign_extend (v : Nat) (layout : TyLayout) : Int :=
  if v < 2 ^ (8 * layout.size - 1) then (v : Int)
  else (v : Int) - 2 ^ (8 * layout.size)

/-- The `as u128` reinterpretation of an `i128` value: reduce to the
canonical residue modulo `2 ^ 128`. -/
def wrap128 (x : Int) : Nat :=
  (x % (2 : Int) ^ 128).toNat

/-- Twos-complement wraparound at 128 bits: the `i128` value whose bit
pattern agrees with `x` modulo `2 ^ 128`. -/
def wrapI128 (x : Int) : Int :=
  (x + 2 ^ 127) % 2 ^ 128 - 2 ^ 127

/-- Embeds `i128::overflowing_add` / `_sub` / `_mul` applied to an exact result `x`:
the wrapped value, and a flag set iff wrapping changed it. -/
def overflowingI128 (x : Int) : Int × Bool :=
  (wrapI128 x, decide (wrapI128 x ≠ x))

/-- Embeds `i128::overflowing_div` (caller guarantees `b ≠ 0`). -/
def overflowing_div_i128 (a b : Int) : Int × Bool :=
  if a = -(2 ^ 127) ∧ b = -1 then (a, true) else (a.tdiv b, false)

/-- Embeds `i128::overflowing_rem` (caller guarantees `b ≠ 0`). -/
def overflowing_rem_i128 (a b : Int) : Int × Bool :=
  if a = -(2 ^ 127) ∧ b = -1 then (0, true) else (a.tmod b, false)

/-- Embeds `u128::overflowing_add` (operands below `2 ^ 128`). -/
def overflowing_add_u128 (a b : Nat) : Nat × Bool :=
  ((a + b) % 2 ^ 128, decide (2 ^ 128 ≤ a + b))

/-- Embeds `u128::overflowing_sub` (operands below `2 ^ 128`). -/
def overflowing_sub_u128 (a b : Nat) : Nat × Bool :=
  ((2 ^ 128 + a - b) % 2 ^ 128, decide (a < b))

/-- Embeds `u128::overflowing_mul` (operands below `2 ^ 128`). -/
def overflowing_mul_u128 (a b : Nat) : Nat × Bool :=
  (a * b % 2 ^ 128, decide (2 ^ 128 ≤ a * b))

/-- Embeds `u128::overflowing_div` (caller guarantees `b ≠ 0`; never overflows). -/
def overflowing_div_u128 (a b : Nat) : Nat × Bool :=
  (a / b, false)

/-- Embeds `u128::overflowing_rem` (caller guarantees `b ≠ 0`; never overflows). -/
def overflowing_rem_u128 (a b : Nat) : Nat × Bool :=
  (a % b, false)

/-- Debug rendering of a binary operator, as in the messages the source
formats. -/
def BinOp.render : BinOp → String
  | BinOp.Add => "Add"
  | BinOp.Sub => "Sub"
  | BinOp.Mul => "Mul"
  | BinOp.Div => "Div"
  | BinOp.Rem => "Rem"
  | BinOp.BitXor => "BitXor"
  | BinOp.BitAnd => "BitAnd"
  | BinOp.BitOr => "BitOr"
  | BinOp.Shl => "Shl"
  | BinOp.Shr => "Shr"
  | BinOp.Eq => "Eq"
  | BinOp.Lt => "Lt"
  | BinOp.Le => "Le"
  | BinOp.Ne => "Ne"
  | BinOp.Ge => "Ge"
  | BinOp.Gt => "Gt"
  | BinOp.Offset => "Offset"

/-- Debug rendering of a type identity. -/
def Ty.render : Ty → String
  | Ty.bool => "bool"
  | Ty.char => "char"
  | Ty.float FloatTy.F32 => "f32"
  | Ty.float FloatTy.F64 => "f64"
  | Ty.int n => "i" ++ toString n
  | Ty.uint n => "u" ++ toString n
  | Ty.rawPtr => "*ptr"
  | Ty.fnPtr => "fn"

/-- The message of the mismatched-type reported failure (source lines
180-187): it names the operator, both raw operands and both operand types. -/
def asym_msg (op : BinOp) (l : Nat) (lty : Ty) (r : Nat) (rty : Ty) : String :=
  "unimplemented asymmetric binary op " ++ op.render ++ ": " ++ toString l
    ++ " (" ++ lty.render ++ "), " ++ toString r ++ " (" ++ rty.render ++ ")"

/-- The message of the catch-all reported failure (source lines 280-286). -/
def sym_msg (op : BinOp) (l r : Nat) (rty : Ty) : String :=
  "unimplemented binary op " ++ op.render ++ ": " ++ toString l ++ ", "
    ++ toString r ++ " (both " ++ rty.render ++ ")"

/-- Embeds `binary_int_op` (source lines 135-292): the integer evaluator.  Raw bit
patterns `l`, `r` are promoted into unsigned 128-bit accumulators.  The
`Add | Sub | Mul | Rem | Div` arm of the final match is flattened into one arm
per operator; each flattened arm performs exactly the zero-divisor check and
the checked `u128` operation that the inner match of the source selects for it. -/
def binary_int_op (bin_op : BinOp) (l : Nat) (left_layout : TyLayout)
    (r : Nat) (right_layout : TyLayout) : Except EvalError (Scalar × Bool) :=
  -- Shift ops can have an RHS with a different numeric type.
  if bin_op = BinOp.Shl ∨ bin_op = BinOp.Shr then
    let signed := left_layout.signed
    let bits := 8 * left_layout.size
    -- oflo = (r as u32 as u128) != r, then oflo |= r >= size.bits()
    let r32 := r % 2 ^ 32
    let oflo : Bool := decide (r32 ≠ r) || decide (bits ≤ r32)
    let amt := if oflo then r32 % bits else r32
    let result : Nat :=
      if signed then
        -- sign-extended left operand, i128 shift, cast back to u128
        match bin_op with
        | BinOp.Shl => wrap128 (sign_extend l left_layout * 2 ^ amt)
        | _ => wrap128 (Int.fdiv (sign_extend l left_layout) (2 ^ amt))
      else
        match bin_op with
        | BinOp.Shl => l * 2 ^ amt % 2 ^ 128
        | _ => l / 2 ^ amt
    Except.ok (Scalar.Bits (truncate result left_layout) left_layout.size, oflo)
  -- For the remaining ops, the types must be the same on both sides
  else if left_layout.ty ≠ right_layout.ty then
    Except.error (EvalError.Unimplemented
      (asym_msg bin_op l left_layout.ty r right_layout.ty))
  -- Ordering comparisons that need special treatment for signed integers
  else if left_layout.signed ∧ (bin_op = BinOp.Lt ∨ bin_op = BinOp.Le ∨
      bin_op = BinOp.Gt ∨ bin_op = BinOp.Ge) then
    let ls := sign_extend l left_layout
    let rs := sign_extend r right_layout
    let res : Bool :=
      match bin_op with
      | BinOp.Lt => decide (ls < rs)
      | BinOp.Le => decide (ls ≤ rs)
      | BinOp.Gt => decide (rs < ls)
      | _ => decide (rs ≤ ls)
    Except.ok (Scalar.from_bool res, false)
  -- Signed arithmetic; the zero-divisor guards of the operator-selecting
  -- match come before everything else
  else if left_layout.signed ∧ (bin_op = BinOp.Div ∨ bin_op = BinOp.Rem ∨
      bin_op = BinOp.Add ∨ bin_op = BinOp.Sub ∨ bin_op = BinOp.Mul) then
    if bin_op = BinOp.Div ∧ r = 0 then Except.error EvalError.DivisionByZero
    else if bin_op = BinOp.Rem ∧ r = 0 then Except.error EvalError.RemainderByZero
    else
      let l128 := sign_extend l left_layout
      let rs := sign_extend r right_layout
      let bits := 8 * left_layout.size
      -- int_min / -1 (the raw left pattern equals 1 << (bits - 1))
      if (bin_op = BinOp.Rem ∨ bin_op = BinOp.Div) ∧ rs = -1 ∧
          l = 2 ^ (bits - 1) then
        Except.ok (Scalar.Bits l left_layout.size, true)
      else
        let p : Int × Bool :=
          match bin_op with
          | BinOp.Div => overflowing_div_i128 l128 rs
          | BinOp.Rem => overflowing_rem_i128 l128 rs
          | BinOp.Add => overflowingI128 (l128 + rs)
          | BinOp.Sub => overflowingI128 (l128 - rs)
          | _ => overflowingI128 (l128 * rs)
        let oflo : Bool :=
          if !p.2 && decide (bits ≠ 128) then
            decide (2 ^ (bits - 1) ≤ p.1 ∨ p.1 < -(2 ^ (bits - 1)))
          else p.2
        Except.ok (Scalar.Bits (truncate (wrap128 p.1) left_layout)
          left_layout.size, oflo)
  else
    -- only ints left
    let size := left_layout.size
    match bin_op with
    | BinOp.Eq => Except.ok (Scalar.from_bool (decide (l = r)), false)
    | BinOp.Ne => Except.ok (Scalar.from_bool (decide (l ≠ r)), false)
    | BinOp.Lt => Except.ok (Scalar.from_bool (decide (l < r)), false)
    | BinOp.Le => Except.ok (Scalar.from_bool (decide (l ≤ r)), false)
    | BinOp.Gt => Except.ok (Scalar.from_bool (decide (r < l)), false)
    | BinOp.Ge => Except.ok (Scalar.from_bool (decide (r ≤ l)), false)
    | BinOp.BitOr => Except.ok (Scalar.Bits (l ||| r) size, false)
    | BinOp.BitAnd => Except.ok (Scalar.Bits (l &&& r) size, false)
    | BinOp.BitXor => Except.ok (Scalar.Bits (l ^^^ r) size, false)
    | BinOp.Add =>
        let p := overflowing_add_u128 l r
        let truncated := truncate p.1 left_layout
        Except.ok (Scalar.Bits truncated size, p.2 || decide (truncated ≠ p.1))
    | BinOp.Sub =>
        let p := overflowing_sub_u128 l r
        let truncated := truncate p.1 left_layout
        Except.ok (Scalar.Bits truncated size, p.2 || decide (truncated ≠ p.1))
    | BinOp.Mul =>
        let p := overflowing_mul_u128 l r
        let truncated := truncate p.1 left_layout
        Except.ok (Scalar.Bits truncated size, p.2 || decide (truncated ≠ p.1))
    | BinOp.Div =>
        if r = 0 then Except.error EvalError.DivisionByZero
        else
          let p := overflowing_div_u128 l r
          let truncated := truncate p.1 left_layout
          Except.ok (Scalar.Bits truncated size, p.2 || decide (truncated ≠ p.1))
    | BinOp.Rem =>
        if r = 0 then Except.error EvalError.RemainderByZero
        else
          let p := overflowing_rem_u128 l r
          let truncated := truncate p.1 left_layout
          Except.ok (Scalar.Bits truncated size, p.2 || decide (truncated ≠ p.1))
    | _ =>
        Except.error (EvalError.Unimplemented
          (sym_msg bin_op l r right_layout.ty))

/-- Embeds `binary_char_op` (source lines 51-69): comparison table on characters,
given here by code point (Rust `char` ordering is code point ordering).
Every other operator is an internal-consistency failure. -/
def binary_char_op (bin_op : BinOp) (l r : Nat) :
    Except EvalError (Scalar × Bool) :=
  match bin_op with
  | BinOp.Eq => Except.ok (Scalar.from_bool (decide (l = r)), false)
  | BinOp.Ne => Except.ok (Scalar.from_bool (decide (l ≠ r)), false)
  | BinOp.Lt => Except.ok (Scalar.from_bool (decide (l < r)), false)
  | BinOp.Le => Except.ok (Scalar.from_bool (decide (l ≤ r)), false)
  | BinOp.Gt => Except.ok (Scalar.from_bool (decide (r < l)), false)
  | BinOp.Ge => Except.ok (Scalar.from_bool (decide (r ≤ l)), false)
  | _ => Except.error (EvalError.Bug "Invalid operation on char")

/-- Embeds `binary_bool_op` (source lines 71-92): comparison and bitwise table on
booleans (Rust `bool` ordering: `false < true`).  Every other operator is an
internal-consistency failure. -/
def binary_bool_op (bin_op : BinOp) (l r : Bool) :
    Except EvalError (Scalar × Bool) :=
  match bin_op with
  | BinOp.Eq => Except.ok (Scalar.from_bool (l == r), false)
  | BinOp.Ne => Except.ok (Scalar.from_bool (l != r), false)
  | BinOp.Lt => Except.ok (Scalar.from_bool (!l && r), false)
  | BinOp.Le => Except.ok (Scalar.from_bool (!l || r), false)
  | BinOp.Gt => Except.ok (Scalar.from_bool (l && !r), false)
  | BinOp.Ge => Except.ok (Scalar.from_bool (l || !r), false)
  | BinOp.BitAnd => Except.ok (Scalar.from_bool (l && r), false)
  | BinOp.BitOr => Except.ok (Scalar.from_bool (l || r), false)
  | BinOp.BitXor => Except.ok (Scalar.from_bool (l != r), false)
  | _ => Except.error (EvalError.Bug "Invalid operation on bool")

/-- Modelled from the spec (sections 1, 4.3): the decoded reading of an
IEEE-754 bit pattern, as implemented by the trusted software floating-point
library (`rustc_apfloat`) the evaluator delegates to.  NaN, the two
infinities, or a finite value given exactly as the dyadic rational
`n / 2 ^ d` (both zeros decode to the value 0, so `-0.0` and `+0.0` are equal
values). -/
inductive FP
  | NaN
  | NegInf
  | PosInf
  | Num (n : Int) (d : Nat)
deriving DecidableEq

/-- Modelled from the spec: IEEE-754 binary-format decoding with `ebits`
exponent bits and `mbits` fraction bits.  A finite pattern with fraction `f`
and biased exponent `e` denotes `(-1)^s * f * 2 ^ (1 - bias - mbits)` when
`e = 0` (subnormal) and `(-1)^s * (2 ^ mbits + f) * 2 ^ (e - bias - mbits)`
otherwise, which over the common denominator `2 ^ (bias + mbits)` is the
numerator below. -/
def fdecode_gen (ebits mbits : Nat) (x : Nat) : FP :=
  let frac := x % 2 ^ mbits
  let expo := x / 2 ^ mbits % 2 ^ ebits
  let sgn := x / 2 ^ (mbits + ebits) % 2 = 1
  if expo = 2 ^ ebits - 1 then
    if frac = 0 then (if sgn then FP.NegInf else FP.PosInf) else FP.NaN
  else
    let bias := 2 ^ (ebits - 1) - 1
    let mag : Nat :=
      if expo = 0 then 2 * frac else (2 ^ mbits + frac) * 2 ^ expo
    FP.Num (if sgn then -(mag : Int) else (mag : Int)) (bias + mbits)

/-- Decoding at the width selected by the format (`Single::from_bits` /
`Double::from_bits`). -/
def fdecode : FloatTy → Nat → FP
  | FloatTy.F32, x => fdecode_gen 8 23 x
  | FloatTy.F64, x => fdecode_gen 11 52 x

/-- Modelled from the spec: IEEE-754 equality (`a / 2 ^ da = b / 2 ^ db` after
clearing denominators).  NaN is equal to nothing, including itself. -/
def FP.feq : FP → FP → Bool
  | FP.Num a da, FP.Num b db =>
      decide (a * ((2 ^ db : Nat) : Int) = b * ((2 ^ da : Nat) : Int))
  | FP.NegInf, FP.NegInf => true
  | FP.PosInf, FP.PosInf => true
  | _, _ => false

/-- Modelled from the spec: IEEE-754 strict ordering.  Any comparison with a
NaN operand is false. -/
def FP.flt : FP → FP → Bool
  | FP.NaN, _ => false
  | _, FP.NaN => false
  | FP.NegInf, FP.NegInf => false
  | FP.NegInf, _ => true
  | _, FP.NegInf => false
  | FP.PosInf, _ => false
  | FP.Num _ _, FP.PosInf => true
  | FP.Num a da, FP.Num b db =>
      decide (a * ((2 ^ db : Nat) : Int) < b * ((2 ^ da : Nat) : Int))

/-- Modelled from the spec: IEEE-754 non-strict ordering. -/
def FP.fle (a b : FP) : Bool :=
  FP.flt a b || FP.feq a b

/-- Whether a decoded value is NaN. -/
def FP.isNaN : FP → Bool
  | FP.NaN => true
  | _ => false

/-- The byte size of a float format (the `$size` of the source macro). -/
def float_size : FloatTy → Nat
  | FloatTy.F32 => 4
  | FloatTy.F64 => 8

/-- Embeds `binary_float_op` (source lines 94-133).  Comparisons follow the modelled
IEEE-754 comparison semantics; the arithmetic operators delegate to the
trusted arbitrary-precision library, taken here as the explicit argument
`arith` producing the re-encoded result bit pattern of the format width
(masked to that width, the codomain of the `to_bits` encoding of the library).  Whatever
the library computes, arithmetic and comparisons report `overflow = false`. -/
def binary_float_op (arith : BinOp → FloatTy → Nat → Nat → Nat)
    (bin_op : BinOp) (fty : FloatTy) (l r : Nat) :
    Except EvalError (Scalar × Bool) :=
  let lf := fdecode fty l
  let rf := fdecode fty r
  match bin_op with
  | BinOp.Eq => Except.ok (Scalar.from_bool (FP.feq lf rf), false)
  | BinOp.Ne => Except.ok (Scalar.from_bool (!FP.feq lf rf), false)
  | BinOp.Lt => Except.ok (Scalar.from_bool (FP.flt lf rf), false)
  | BinOp.Le => Except.ok (Scalar.from_bool (FP.fle lf rf), false)
  | BinOp.Gt => Except.ok (Scalar.from_bool (FP.flt rf lf), false)
  | BinOp.Ge => Except.ok (Scalar.from_bool (FP.fle rf lf), false)
  | BinOp.Add | BinOp.Sub | BinOp.Mul | BinOp.Div | BinOp.Rem =>
      Except.ok (Scalar.Bits (arith bin_op fty l r % 2 ^ (8 * float_size fty))
        (float_size fty), false)
  | _ => Except.error (EvalError.Bug "invalid float op")

/-- Modelled from the spec: IEEE-754 negation as the trusted library
implements it — flip the sign bit of the pattern. -/
def fneg : FloatTy → Nat → Nat
  | FloatTy.F32, v => v ^^^ 2 ^ 31
  | FloatTy.F64, v => v ^^^ 2 ^ 63

/-- Embeds `!val` on a `u128` accumulator (bitwise complement; the result is
truncated by the caller). -/
def u128_not (v : Nat) : Nat :=
  2 ^ 128 - 1 - v % 2 ^ 128

/-- Embeds `unary_op` (source lines 348-395).  Dispatches on the operand type:
`Not` on bool, `Neg` on float, and `Not` / `Neg` (signed only, asserted) on
integers, the integer result being truncated to the layout width.  The
result is a single `Scalar`; no overflow flag is produced. -/
def unary_op (un_op : UnOp) (val : Scalar) (layout : TyLayout) :
    Except EvalError Scalar :=
  match layout.ty with
  | Ty.bool =>
      match val.to_bool with
      | Except.error e => Except.error e
      | Except.ok b =>
          match un_op with
          | UnOp.Not => Except.ok (Scalar.from_bool (!b))
          | _ => Except.error (EvalError.Bug "Invalid bool op")
  | Ty.float fty =>
      match val.to_bits layout.size with
      | Except.error e => Except.error e
      | Except.ok v =>
          match un_op with
          | UnOp.Neg => Except.ok (Scalar.Bits (fneg fty v) layout.size)
          | _ => Except.error (EvalError.Bug "Invalid float op")
  | _ =>
      if layout.ty.is_integral then
        match val.to_bits layout.size with
        | Except.error e => Except.error e
        | Except.ok v =>
            match un_op with
            | UnOp.Not =>
                Except.ok (Scalar.Bits (truncate (u128_not v) layout)
                  layout.size)
            | UnOp.Neg =>
                -- assert!(layout.abi.is_signed()); (-(val as i128)) as u128
                if layout.signed then
                  Except.ok (Scalar.Bits
                    (truncate ((2 ^ 128 - v % 2 ^ 128) % 2 ^ 128) layout)
                    layout.size)
                else Except.error (EvalError.Bug "Neg on unsigned int")
      else Except.error (EvalError.Bug "unary op on non-integral type")

/-! Definitions used to state the specified properties. -/

/-- The mathematically exact result of an arithmetic operator on exact
integer operands (`Add`, `Sub`, or `Mul`). -/
def exact_arith (op : BinOp) (a b : Int) : Int :=
  match op with
  | BinOp.Add => a + b
  | BinOp.Sub => a - b
  | _ => a * b

/-- The mathematical value a raw bit pattern represents under its layout:
the sign-extended value if the layout is signed, the pattern itself if not. -/
def int_value (L : TyLayout) (v : Nat) : Int :=
  if L.signed then sign_extend v L else ((v : Nat) : Int)

/-- Whether an exact integer lies outside the representable range of the
layout: `[-2 ^ (w - 1), 2 ^ (w - 1))` when signed, `[0, 2 ^ w)` when not,
with `w` the bit width of the layout. -/
def out_of_range (L : TyLayout) (x : Int) : Bool :=
  if L.signed then
    decide (x < -((2 ^ (8 * L.size - 1) : Nat) : Int) ∨
      ((2 ^ (8 * L.size - 1) : Nat) : Int) ≤ x)
  else
    decide (x < 0 ∨ ((2 ^ (8 * L.size) : Nat) : Int) ≤ x)

/-- An exact integer reduced modulo `2 ^ w`, as a bit pattern. -/
def exact_mod (x : Int) (w : Nat) : Nat :=
  (x % ((2 ^ w : Nat) : Int)).toNat

/-- The specified shift overflow flag: the right operand does not fit in 32
bits, or is at least the bit width of the left operand. -/
def shift_oflo (r w : Nat) : Bool :=
  decide (2 ^ 32 ≤ r ∨ w ≤ r)

/-- The specified effective shift amount: `r mod w` whenever the overflow
flag is set, `r` itself otherwise. -/
def shift_amount (r w : Nat) : Nat :=
  if shift_oflo r w then r % w else r

/-- The specified shift result before truncation: an arithmetic shift of the
sign-extended left operand when its layout is signed (`Shr`; `Shl` multiplies
and wraps), a logical shift of the unsigned accumulator otherwise. -/
def shift_result (op : BinOp) (L : TyLayout) (l amt : Nat) : Nat :=
  if L.signed then
    match op with
    | BinOp.Shl => wrap128 (sign_extend l L * 2 ^ amt)
    | _ => wrap128 (Int.fdiv (sign_extend l L) (2 ^ amt))
  else
    match op with
    | BinOp.Shl => l * 2 ^ amt % 2 ^ 128
    | _ => l / 2 ^ amt

/-! Helper lemmas. -/

theorem truncate_lt (v : Nat) (L : TyLayout) : truncate v L < 2 ^ (8 * L.size) :=
  Nat.mod_lt v (pow_pos (by norm_num) _)

theorem two_pow_split (w : Nat) (h : 1 ≤ w) : 2 ^ (w - 1) * 2 = 2 ^ w := by
  rw [← pow_succ]
  congr 1
  omega

theorem sign_extend_all_ones (L : TyLayout) (h : 1 ≤ L.size) :
    sign_extend (2 ^ (8 * L.size) - 1) L = -1 := by
  have h2 : 2 ^ (8 * L.size - 1) * 2 = 2 ^ (8 * L.size) := two_pow_split _ (by omega)
  have h1 : (1 : Nat) ≤ 2 ^ (8 * L.size - 1) := Nat.one_le_two_pow
  unfold sign_extend
  rw [if_neg (by omega)]
  have hc : ((2 ^ (8 * L.size) - 1 : Nat) : Int) = (2 : Int) ^ (8 * L.size) - 1 := by
    rw [Nat.cast_sub (by omega)]
    push_cast
    ring
  rw [hc]
  ring

/-! Claim theorems. -/

theorem nat_mod_ne_iff {a m : Nat} (hm : 0 < m) : a % m ≠ a ↔ m ≤ a := by
  constructor
  · intro h
    by_contra hc
    exact h (Nat.mod_eq_of_lt (by omega))
  · intro h
    have := Nat.mod_lt a hm
    omega

theorem wrapI128_eq_self_iff (x : Int) :
    wrapI128 x = x ↔ -(2 ^ 127) ≤ x ∧ x < 2 ^ 127 := by
  unfold wrapI128
  omega

theorem wrapI128_emod (x : Int) : wrapI128 x % 2 ^ 128 = x % 2 ^ 128 := by
  unfold wrapI128
  omega

theorem exact_mod_natCast (a w : Nat) : exact_mod (a : Int) w = a % 2 ^ w := by
  unfold exact_mod
  rw [show (a : Int) % ((2 ^ w : Nat) : Int) = ((a % 2 ^ w : Nat) : Int) by
    push_cast; ring, Int.toNat_natCast]

theorem exact_mod_congr {x y : Int} (w : Nat)
    (h : x % ((2 ^ w : Nat) : Int) = y % ((2 ^ w : Nat) : Int)) :
    exact_mod x w = exact_mod y w := by
  unfold exact_mod
  rw [h]

theorem cast_two_pow (w : Nat) : ((2 ^ w : Nat) : Int) = (2 : Int) ^ w := by
  push_cast
  ring

theorem truncate_wrap128 (x : Int) (L : TyLayout) (hw : 8 * L.size ≤ 128) :
    truncate (wrap128 x) L = exact_mod x (8 * L.size) := by
  unfold truncate wrap128
  have h0 : 0 ≤ x % (2 : Int) ^ 128 := Int.emod_nonneg _ (by positivity)
  have key : (((x % (2 : Int) ^ 128).toNat % 2 ^ (8 * L.size) : Nat) : Int)
      = x % ((2 ^ (8 * L.size) : Nat) : Int) := by
    rw [show (((x % (2 : Int) ^ 128).toNat % 2 ^ (8 * L.size) : Nat) : Int)
        = ((x % (2 : Int) ^ 128).toNat : Int) % ((2 ^ (8 * L.size) : Nat) : Int) by
      push_cast; ring]
    rw [Int.toNat_of_nonneg h0, cast_two_pow,
      Int.emod_emod_of_dvd x (pow_dvd_pow 2 hw)]
  rw [exact_mod, ← key, Int.toNat_natCast]

theorem exact_mod_wrapI128 (x : Int) (w : Nat) (hw : w ≤ 128) :
    exact_mod (wrapI128 x) w = exact_mod x w := by
  apply exact_mod_congr
  rw [cast_two_pow, ← Int.emod_emod_of_dvd (wrapI128 x) (pow_dvd_pow 2 hw),
    wrapI128_emod, Int.emod_emod_of_dvd x (pow_dvd_pow 2 hw)]

theorem sign_extend_bounds (L : TyLayout) (v : Nat) (h1 : 1 ≤ L.size)
    (hv : v < 2 ^ (8 * L.size)) :
    -(((2 ^ (8 * L.size - 1) : Nat) : Int)) ≤ sign_extend v L ∧
      sign_extend v L < ((2 ^ (8 * L.size - 1) : Nat) : Int) := by
  have h2 : 2 ^ (8 * L.size - 1) * 2 = 2 ^ (8 * L.size) := two_pow_split _ (by omega)
  have hc := cast_two_pow (8 * L.size)
  unfold sign_extend
  split_ifs with h
  · omega
  · omega

theorem sign_extend_emod (L : TyLayout) (v : Nat) :
    sign_extend v L % ((2 ^ (8 * L.size) : Nat) : Int)
      = (v : Int) % ((2 ^ (8 * L.size) : Nat) : Int) := by
  unfold sign_extend
  split_ifs with h
  · rfl
  · rw [cast_two_pow, Int.sub_emod, Int.emod_self, sub_zero,
      Int.emod_emod_of_dvd _ dvd_rfl]

/-- Exact `Add` / `Sub` / `Mul` on operands bounded by `2 ^ 63` stays within
the `i128` range. -/
theorem abs_exact_small (op : BinOp)
    (hop : op = BinOp.Add ∨ op = BinOp.Sub ∨ op = BinOp.Mul)
    {a b A : Int} (ha : -A ≤ a ∧ a < A) (hb : -A ≤ b ∧ b < A)
    (hA2 : A ≤ 2 ^ 63) :
    -(2 ^ 127) ≤ exact_arith op a b ∧ exact_arith op a b < 2 ^ 127 := by
  have haA : |a| ≤ A := abs_le.mpr ⟨ha.1, le_of_lt ha.2⟩
  have hbA : |b| ≤ A := abs_le.mpr ⟨hb.1, le_of_lt hb.2⟩
  rcases hop with rfl | rfl | rfl <;> simp only [exact_arith]
  · have h1 := abs_le.mp (haA.trans hA2)
    have h2 := abs_le.mp (hbA.trans hA2)
    omega
  · have h1 := abs_le.mp (haA.trans hA2)
    have h2 := abs_le.mp (hbA.trans hA2)
    omega
  · have hm : |a * b| ≤ 2 ^ 63 * 2 ^ 63 := by
      rw [abs_mul]
      exact mul_le_mul (haA.trans hA2) (hbA.trans hA2) (abs_nonneg b)
        (by positivity)
    have := abs_le.mp hm
    omega

/-- The signed overflow flag the code computes (the checked-operation flag,
refined by a range check for widths below 128) equals the specified
out-of-range test on the exact result. -/
theorem signed_flag (L : TyLayout) (x : Int) (hwle : 8 * L.size ≤ 128)
    (hsmall : 8 * L.size ≠ 128 → -(2 ^ 127) ≤ x ∧ x < 2 ^ 127) :
    (if !(overflowingI128 x).2 && decide (8 * L.size ≠ 128) then
        decide ((2 : Int) ^ (8 * L.size - 1) ≤ (overflowingI128 x).1 ∨
          (overflowingI128 x).1 < -(2 ^ (8 * L.size - 1)))
      else (overflowingI128 x).2)
      = decide (x < -((2 ^ (8 * L.size - 1) : Nat) : Int) ∨
          ((2 ^ (8 * L.size - 1) : Nat) : Int) ≤ x) := by
  have hc := cast_two_pow (8 * L.size - 1)
  have hp1 : (overflowingI128 x).1 = wrapI128 x := rfl
  have hp2 : (overflowingI128 x).2 = decide (wrapI128 x ≠ x) := rfl
  by_cases h128 : 8 * L.size = 128
  · have hd : decide (8 * L.size ≠ 128) = false := by simp [h128]
    rw [hp2, hd, Bool.and_false, if_neg (by simp)]
    apply decide_eq_decide.mpr
    rw [Ne, wrapI128_eq_self_iff, h128]
    omega
  · have hb := hsmall h128
    have hw : wrapI128 x = x := (wrapI128_eq_self_iff x).mpr ⟨hb.1, hb.2⟩
    have hp2f : (overflowingI128 x).2 = false := by
      rw [hp2, hw]
      simp
    have hd : decide (8 * L.size ≠ 128) = true := by simp [h128]
    rw [hp1, hw, hp2f, hd, if_pos (by rfl)]
    apply decide_eq_decide.mpr
    rw [hc]
    tauto

/-- The unsigned overflow flag the code computes for `Add` / `Mul` — checked
`u128` flag or truncation loss on the exact nonnegative result `n` — equals
the specified out-of-range test. -/
theorem unsigned_flag (n : Nat) (L : TyLayout) (hsu : L.signed = false)
    (hwle : 8 * L.size ≤ 128) :
    (decide (2 ^ 128 ≤ n) ||
      decide (truncate (n % 2 ^ 128) L ≠ n % 2 ^ 128))
      = out_of_range L (n : Int) := by
  have hWle : (2 : Nat) ^ (8 * L.size) ≤ 2 ^ 128 :=
    Nat.pow_le_pow_right (by norm_num) hwle
  have h0 : (0 : Nat) < 2 ^ (8 * L.size) := pow_pos (by norm_num) _
  simp only [out_of_range, hsu, Bool.false_eq_true, if_false, truncate]
  rw [← Bool.decide_or]
  apply decide_eq_decide.mpr
  constructor
  · rintro (h | h)
    · omega
    · have h1 : 2 ^ (8 * L.size) ≤ n % 2 ^ 128 := by
        by_contra hc
        push_neg at hc
        exact h (Nat.mod_eq_of_lt hc)
      have h2 : n % 2 ^ 128 ≤ n := Nat.mod_le n _
      omega
  · rintro (h | h)
    · omega
    · have h1 : 2 ^ (8 * L.size) ≤ n := by omega
      rcases Nat.lt_or_ge n (2 ^ 128) with hc | hc
      · right
        rw [Nat.mod_eq_of_lt hc]
        exact (nat_mod_ne_iff h0).mpr h1
      · left
        omega

/-- The signed arithmetic tail of `binary_int_op`, compared with the
specified exact-result form, for an arbitrary exact value `x` that fits in
`i128` whenever the width is below 128. -/
theorem signed_case_core (L : TyLayout) (x : Int) (hs : L.signed = true)
    (hwle : 8 * L.size ≤ 128)
    (hsmall : 8 * L.size ≠ 128 → -(2 ^ 127) ≤ x ∧ x < 2 ^ 127) :
    (Except.ok (Scalar.Bits (truncate (wrap128 (overflowingI128 x).1) L) L.size,
        (if !(overflowingI128 x).2 && decide (8 * L.size ≠ 128) then
          decide ((2 : Int) ^ (8 * L.size - 1) ≤ (overflowingI128 x).1 ∨
            (overflowingI128 x).1 < -(2 ^ (8 * L.size - 1)))
        else (overflowingI128 x).2))
      : Except EvalError (Scalar × Bool))
      = Except.ok (Scalar.Bits (exact_mod x (8 * L.size)) L.size,
          out_of_range L x) := by
  have htr : truncate (wrap128 (overflowingI128 x).1) L
      = exact_mod x (8 * L.size) := by
    rw [show (overflowingI128 x).1 = wrapI128 x from rfl,
      truncate_wrap128 _ _ hwle, exact_mod_wrapI128 _ _ hwle]
  rw [signed_flag L x hwle hsmall, htr, out_of_range, if_pos hs]

/-- Case lemma: `Add` on an unsigned layout matches the exact-result specification. -/
theorem C1_add_unsigned (L : TyLayout) (l r : Nat) (hsu : L.signed = false)
    (hwle : 8 * L.size ≤ 128) :
    binary_int_op BinOp.Add l L r L
      = Except.ok (Scalar.Bits (exact_mod ((l : Int) + r) (8 * L.size)) L.size,
          out_of_range L ((l : Int) + r)) := by
  have hcast : ((l + r : Nat) : Int) = (l : Int) + r := by push_cast; ring
  have hflag := unsigned_flag (l + r) L hsu hwle
  rw [hcast] at hflag
  have hbits : truncate ((l + r) % 2 ^ 128) L
      = exact_mod ((l : Int) + r) (8 * L.size) := by
    rw [← hcast, exact_mod_natCast, truncate,
      Nat.mod_mod_of_dvd _ (pow_dvd_pow 2 hwle)]
  simp only [binary_int_op, reduceCtorEq, or_self, or_false, false_or,
    hsu, Bool.false_eq_true, false_and, if_false, ne_eq, not_true_eq_false,
    ite_false, overflowing_add_u128]
  rw [hflag, hbits]

/-- Case lemma: `Mul` on an unsigned layout matches the exact-result specification. -/
theorem C1_mul_unsigned (L : TyLayout) (l r : Nat) (hsu : L.signed = false)
    (hwle : 8 * L.size ≤ 128) :
    binary_int_op BinOp.Mul l L r L
      = Except.ok (Scalar.Bits (exact_mod ((l : Int) * r) (8 * L.size)) L.size,
          out_of_range L ((l : Int) * r)) := by
  have hcast : ((l * r : Nat) : Int) = (l : Int) * r := by push_cast; ring
  have hflag := unsigned_flag (l * r) L hsu hwle
  rw [hcast] at hflag
  have hbits : truncate (l * r % 2 ^ 128) L
      = exact_mod ((l : Int) * r) (8 * L.size) := by
    rw [← hcast, exact_mod_natCast, truncate,
      Nat.mod_mod_of_dvd _ (pow_dvd_pow 2 hwle)]
  simp only [binary_int_op, reduceCtorEq, or_self, or_false, false_or,
    hsu, Bool.false_eq_true, false_and, if_false, ne_eq, not_true_eq_false,
    ite_false, overflowing_mul_u128]
  rw [hflag, hbits]

/-- Case lemma: `Sub` on an unsigned layout matches the exact-result specification. -/
theorem C1_sub_unsigned (L : TyLayout) (l r : Nat) (hsu : L.signed = false)
    (hwle : 8 * L.size ≤ 128) (hl : l < 2 ^ (8 * L.size))
    (hr : r < 2 ^ (8 * L.size)) :
    binary_int_op BinOp.Sub l L r L
      = Except.ok (Scalar.Bits (exact_mod ((l : Int) - r) (8 * L.size)) L.size,
          out_of_range L ((l : Int) - r)) := by
  have h0 : (0 : Nat) < 2 ^ (8 * L.size) := pow_pos (by norm_num) _
  have hle128 : (2 : Nat) ^ (8 * L.size) ≤ 2 ^ 128 :=
    Nat.pow_le_pow_right (by norm_num) hwle
  have hbits : truncate ((2 ^ 128 + l - r) % 2 ^ 128) L
      = exact_mod ((l : Int) - r) (8 * L.size) := by
    have hrle : r ≤ 2 ^ 128 + l := by omega
    have hcast : ((2 ^ 128 + l - r : Nat) : Int) = 2 ^ 128 + (l : Int) - r := by
      rw [Nat.cast_sub hrle]
      push_cast
      ring
    have hcong : ((l : Int) - r) % ((2 ^ (8 * L.size) : Nat) : Int)
        = ((2 ^ 128 + l - r : Nat) : Int) % ((2 ^ (8 * L.size) : Nat) : Int) := by
      rw [hcast, cast_two_pow,
        show (2 : Int) ^ 128 + (l : Int) - r = ((l : Int) - r) + 2 ^ 128 by ring]
      obtain ⟨k, hk⟩ : ((2 : Int) ^ (8 * L.size)) ∣ 2 ^ 128 := pow_dvd_pow 2 hwle
      rw [hk, Int.add_mul_emod_self_left]
    rw [truncate, Nat.mod_mod_of_dvd _ (pow_dvd_pow 2 hwle),
      ← exact_mod_natCast (2 ^ 128 + l - r) (8 * L.size)]
    exact (exact_mod_congr _ hcong).symm
  have hflag : (decide (l < r) ||
      decide (truncate ((2 ^ 128 + l - r) % 2 ^ 128) L ≠ (2 ^ 128 + l - r) % 2 ^ 128))
      = out_of_range L ((l : Int) - r) := by
    have hout : out_of_range L ((l : Int) - r) = decide (l < r) := by
      simp only [out_of_range, hsu, Bool.false_eq_true, if_false]
      apply decide_eq_decide.mpr
      omega
    rw [hout]
    by_cases hlr : l < r
    · simp [hlr]
    · have hx : 2 ^ 128 + l - r = 2 ^ 128 + (l - r) := by omega
      have hmod : (2 ^ 128 + (l - r)) % 2 ^ 128 = l - r := by
        rw [Nat.add_mod_left]
        exact Nat.mod_eq_of_lt (by omega)
      have htr : truncate (l - r) L = l - r :=
        Nat.mod_eq_of_lt (by omega)
      rw [hx, hmod, htr]
      simp [hlr]
  simp only [binary_int_op, reduceCtorEq, or_self, or_false, false_or,
    hsu, Bool.false_eq_true, false_and, if_false, ne_eq, not_true_eq_false,
    ite_false, overflowing_sub_u128]
  rw [hflag, hbits]

/-- Case lemma: `Add` on a signed layout matches the exact-result specification. -/
theorem C1_add_signed (L : TyLayout) (l r : Nat) (hs : L.signed = true)
    (h1 : 1 ≤ L.size) (hwle : 8 * L.size ≤ 128)
    (hnot128 : 8 * L.size ≠ 128 → L.size ≤ 8)
    (hl : l < 2 ^ (8 * L.size)) (hr : r < 2 ^ (8 * L.size)) :
    binary_int_op BinOp.Add l L r L
      = Except.ok (Scalar.Bits
          (exact_mod (sign_extend l L + sign_extend r L) (8 * L.size)) L.size,
          out_of_range L (sign_extend l L + sign_extend r L)) := by
  have hsmall : 8 * L.size ≠ 128 →
      -(2 ^ 127) ≤ sign_extend l L + sign_extend r L ∧
        sign_extend l L + sign_extend r L < 2 ^ 127 := by
    intro h128
    have hA2 : ((2 ^ (8 * L.size - 1) : Nat) : Int) ≤ 2 ^ 63 := by
      have hq : (2 : Nat) ^ (8 * L.size - 1) ≤ 2 ^ 63 :=
        Nat.pow_le_pow_right (by norm_num) (by have := hnot128 h128; omega)
      exact_mod_cast hq
    have := abs_exact_small BinOp.Add (Or.inl rfl)
      (sign_extend_bounds L l h1 hl) (sign_extend_bounds L r h1 hr) hA2
    simpa [exact_arith] using this
  have hcore := signed_case_core L (sign_extend l L + sign_extend r L) hs hwle
    hsmall
  simp only [binary_int_op, reduceCtorEq, or_self, or_false, false_or,
    true_or, or_true, hs, eq_self_iff_true, true_and, and_false, false_and,
    if_true, if_false, ne_eq, not_true_eq_false, ite_false, ite_true,
    and_true]
  exact hcore

/-- Case lemma: `Sub` on a signed layout matches the exact-result specification. -/
theorem C1_sub_signed (L : TyLayout) (l r : Nat) (hs : L.signed = true)
    (h1 : 1 ≤ L.size) (hwle : 8 * L.size ≤ 128)
    (hnot128 : 8 * L.size ≠ 128 → L.size ≤ 8)
    (hl : l < 2 ^ (8 * L.size)) (hr : r < 2 ^ (8 * L.size)) :
    binary_int_op BinOp.Sub l L r L
      = Except.ok (Scalar.Bits
          (exact_mod (sign_extend l L - sign_extend r L) (8 * L.size)) L.size,
          out_of_range L (sign_extend l L - sign_extend r L)) := by
  have hsmall : 8 * L.size ≠ 128 →
      -(2 ^ 127) ≤ sign_extend l L - sign_extend r L ∧
        sign_extend l L - sign_extend r L < 2 ^ 127 := by
    intro h128
    have hA2 : ((2 ^ (8 * L.size - 1) : Nat) : Int) ≤ 2 ^ 63 := by
      have hq : (2 : Nat) ^ (8 * L.size - 1) ≤ 2 ^ 63 :=
        Nat.pow_le_pow_right (by norm_num) (by have := hnot128 h128; omega)
      exact_mod_cast hq
    have := abs_exact_small BinOp.Sub (Or.inr (Or.inl rfl))
      (sign_extend_bounds L l h1 hl) (sign_extend_bounds L r h1 hr) hA2
    simpa [exact_arith] using this
  have hcore := signed_case_core L (sign_extend l L - sign_extend r L) hs hwle
    hsmall
  simp only [binary_int_op, reduceCtorEq, or_self, or_false, false_or,
    true_or, or_true, hs, eq_self_iff_true, true_and, and_false, false_and,
    if_true, if_false, ne_eq, not_true_eq_false, ite_false, ite_true,
    and_true]
  exact hcore

/-- Case lemma: `Mul` on a signed layout matches the exact-result specification. -/
theorem C1_mul_signed (L : TyLayout) (l r : Nat) (hs : L.signed = true)
    (h1 : 1 ≤ L.size) (hwle : 8 * L.size ≤ 128)
    (hnot128 : 8 * L.size ≠ 128 → L.size ≤ 8)
    (hl : l < 2 ^ (8 * L.size)) (hr : r < 2 ^ (8 * L.size)) :
    binary_int_op BinOp.Mul l L r L
      = Except.ok (Scalar.Bits
          (exact_mod (sign_extend l L * sign_extend r L) (8 * L.size)) L.size,
          out_of_range L (sign_extend l L * sign_extend r L)) := by
  have hsmall : 8 * L.size ≠ 128 →
      -(2 ^ 127) ≤ sign_extend l L * sign_extend r L ∧
        sign_extend l L * sign_extend r L < 2 ^ 127 := by
    intro h128
    have hA2 : ((2 ^ (8 * L.size - 1) : Nat) : Int) ≤ 2 ^ 63 := by
      have hq : (2 : Nat) ^ (8 * L.size - 1) ≤ 2 ^ 63 :=
        Nat.pow_le_pow_right (by norm_num) (by have := hnot128 h128; omega)
      exact_mod_cast hq
    have := abs_exact_small BinOp.Mul (Or.inr (Or.inr rfl))
      (sign_extend_bounds L l h1 hl) (sign_extend_bounds L r h1 hr) hA2
    simpa [exact_arith] using this
  have hcore := signed_case_core L (sign_extend l L * sign_extend r L) hs hwle
    hsmall
  simp only [binary_int_op, reduceCtorEq, or_self, or_false, false_or,
    true_or, or_true, hs, eq_self_iff_true, true_and, and_false, false_and,
    if_true, if_false, ne_eq, not_true_eq_false, ite_false, ite_true,
    and_true]
  exact hcore

/-- Claim C1: for every supported integer width `w` in 8, 16, 32, 64, 128
bits and either signedness, `Add`, `Sub` and `Mul` return a bit pattern equal
to the mathematically exact result reduced modulo `2 ^ w`, and an overflow
flag that is true iff the exact result lies outside the representable range
for the width and signedness. -/
theorem C1_add_sub_mul_exact (op : BinOp) (L : TyLayout) (l r : Nat)
    (hop : op = BinOp.Add ∨ op = BinOp.Sub ∨ op = BinOp.Mul)
    (hsz : L.size = 1 ∨ L.size = 2 ∨ L.size = 4 ∨ L.size = 8 ∨ L.size = 16)
    (hl : l < 2 ^ (8 * L.size)) (hr : r < 2 ^ (8 * L.size)) :
    binary_int_op op l L r L
      = Except.ok (Scalar.Bits
          (exact_mod (exact_arith op (int_value L l) (int_value L r))
            (8 * L.size)) L.size,
          out_of_range L (exact_arith op (int_value L l) (int_value L r))) := by
  have h1 : 1 ≤ L.size := by rcases hsz with h | h | h | h | h <;> omega
  have hwle : 8 * L.size ≤ 128 := by rcases hsz with h | h | h | h | h <;> omega
  have hnot128 : 8 * L.size ≠ 128 → L.size ≤ 8 := by
    intro h128
    rcases hsz with h | h | h | h | h <;> omega
  by_cases hs : L.signed
  · rcases hop with rfl | rfl | rfl
    · have h := C1_add_signed L l r hs h1 hwle hnot128 hl hr
      simpa [exact_arith, int_value, hs] using h
    · have h := C1_sub_signed L l r hs h1 hwle hnot128 hl hr
      simpa [exact_arith, int_value, hs] using h
    · have h := C1_mul_signed L l r hs h1 hwle hnot128 hl hr
      simpa [exact_arith, int_value, hs] using h
  · have hsu : L.signed = false := by simpa using hs
    rcases hop with rfl | rfl | rfl
    · have h := C1_add_unsigned L l r hsu hwle
      simpa [exact_arith, int_value, hsu] using h
    · have h := C1_sub_unsigned L l r hsu hwle hl hr
      simpa [exact_arith, int_value, hsu] using h
    · have h := C1_mul_unsigned L l r hsu hwle
      simpa [exact_arith, int_value, hsu] using h

/-- Witness for C1: `Add` of 250 and 10 at the `u8` layout (overflow, result
4). -/
theorem C1_witness :
    binary_int_op BinOp.Add 250 ⟨Ty.uint 8, 1, false⟩ 10 ⟨Ty.uint 8, 1, false⟩
      = Except.ok (Scalar.Bits
          (exact_mod (exact_arith BinOp.Add
            (int_value ⟨Ty.uint 8, 1, false⟩ 250)
            (int_value ⟨Ty.uint 8, 1, false⟩ 10)) (8 * 1)) 1,
          out_of_range ⟨Ty.uint 8, 1, false⟩ (exact_arith BinOp.Add
            (int_value ⟨Ty.uint 8, 1, false⟩ 250)
            (int_value ⟨Ty.uint 8, 1, false⟩ 10))) :=
  C1_add_sub_mul_exact BinOp.Add ⟨Ty.uint 8, 1, false⟩ 250 10 (Or.inl rfl)
    (Or.inl rfl) (by norm_num) (by norm_num)

/-- Claim C2: for every integer width and signedness, evaluating `Div` or
`Rem` with a right operand of value zero fails with `DivisionByZero` or
`RemainderByZero` respectively — for every left operand, including the
minimum representable value, so the zero check precedes the INT_MIN / -1
special case and no `(value, overflow)` result is produced. -/
theorem C2_div_rem_by_zero (l : Nat) (L : TyLayout) :
    binary_int_op BinOp.Div l L 0 L = Except.error EvalError.DivisionByZero ∧
    binary_int_op BinOp.Rem l L 0 L = Except.error EvalError.RemainderByZero := by
  constructor <;> by_cases hs : L.signed <;> simp [binary_int_op, hs]

/-- Claim C3: for every signed integer width, `Div` and `Rem` with left
operand the minimum representable value (bit pattern `2 ^ (w - 1)`) and
right operand `-1` (bit pattern `2 ^ w - 1`) return that same minimum bit
pattern together with `overflow = true`. -/
theorem C3_int_min_div_neg_one (L : TyLayout) (op : BinOp)
    (hop : op = BinOp.Div ∨ op = BinOp.Rem)
    (hs : L.signed = true) (hsz : 1 ≤ L.size) :
    binary_int_op op (2 ^ (8 * L.size - 1)) L (2 ^ (8 * L.size) - 1) L
      = Except.ok (Scalar.Bits (2 ^ (8 * L.size - 1)) L.size, true) := by
  have h2 : 2 ^ (8 * L.size - 1) * 2 = 2 ^ (8 * L.size) := two_pow_split _ (by omega)
  have h1 : (1 : Nat) ≤ 2 ^ (8 * L.size - 1) := Nat.one_le_two_pow
  have hr0 : 2 ^ (8 * L.size) - 1 ≠ 0 := by omega
  have hse := sign_extend_all_ones L hsz
  rcases hop with rfl | rfl <;> simp [binary_int_op, hs, hr0, hse]

/-- Witness for C3 at the 32-bit signed layout. -/
theorem C3_witness :
    binary_int_op BinOp.Div 2147483648 ⟨Ty.int 32, 4, true⟩ 4294967295
        ⟨Ty.int 32, 4, true⟩
      = Except.ok (Scalar.Bits 2147483648 4, true) := by
  have h := C3_int_min_div_neg_one ⟨Ty.int 32, 4, true⟩ BinOp.Div (Or.inl rfl) rfl
    (by norm_num)
  norm_num at h
  exact h

/-- Claim C9: for every non-shift binary operator, mismatched operand type
identities make `binary_int_op` return the recoverable `Unimplemented`
reported failure whose message names the operator and both operand types —
not a `Bug` (internal-consistency) abort — and no value is produced. -/
theorem C9_asymmetric_reported (op : BinOp) (l r : Nat) (ll rl : TyLayout)
    (h1 : op ≠ BinOp.Shl) (h2 : op ≠ BinOp.Shr) (h3 : ll.ty ≠ rl.ty) :
    binary_int_op op l ll r rl
      = Except.error (EvalError.Unimplemented (asym_msg op l ll.ty r rl.ty)) := by
  simp [binary_int_op, h1, h2, h3]

/-- Witness for C9: `Add` on a `u8` and a `u32` operand. -/
theorem C9_witness :
    binary_int_op BinOp.Add 1 ⟨Ty.uint 8, 1, false⟩ 2 ⟨Ty.uint 32, 4, false⟩
      = Except.error (EvalError.Unimplemented
          "unimplemented asymmetric binary op Add: 1 (u8), 2 (u32)") := by
  have h := C9_asymmetric_reported BinOp.Add 1 2 ⟨Ty.uint 8, 1, false⟩
    ⟨Ty.uint 32, 4, false⟩ (by decide) (by decide) (by decide)
  exact h

/-- Claim C6 fails on the code: `unary_op` returns a bare `Scalar`, not a
`(value, overflow)` pair.  At the concrete input `Not` on the boolean `true`
the evaluation succeeds, yet the result — as a `Value` — is a single scalar
and not a `ScalarPair`, unlike a binary result routed through
the packaging of `binop_with_overflow`, which is a pair. -/
theorem C6_counterexample :
    result_is_pair ((unary_op UnOp.Not (Scalar.from_bool true)
        ⟨Ty.bool, 1, false⟩).map Value.Scalar) = false ∧
    unary_op UnOp.Not (Scalar.from_bool true) ⟨Ty.bool, 1, false⟩
      = Except.ok (Scalar.from_bool false) ∧
    result_is_pair ((binary_int_op BinOp.Add 250 ⟨Ty.uint 8, 1, false⟩ 10
        ⟨Ty.uint 8, 1, false⟩).map with_overflow_pair) = true := by
  refine ⟨by decide, by decide, by decide⟩

/-- Claim C6, amended: unary dispatch does not mirror the binary
`(value, overflow)` contract — it returns only a result scalar, with no
overflow flag.  For every supported unary combination (`Not` on bool or
integer, `Neg` on float or signed integer) the evaluator succeeds with a
single result value. -/
theorem C6_unary_returns_bare_scalar :
    (∀ (b : Bool) (L : TyLayout), L.ty = Ty.bool →
      unary_op UnOp.Not (Scalar.from_bool b) L
        = Except.ok (Scalar.from_bool (!b))) ∧
    (∀ (v : Nat) (L : TyLayout), L.ty.is_integral = true → L.size ≠ 0 →
      unary_op UnOp.Not (Scalar.Bits v L.size) L
        = Except.ok (Scalar.Bits (truncate (u128_not v) L) L.size)) ∧
    (∀ (v : Nat) (L : TyLayout), L.ty.is_integral = true → L.size ≠ 0 →
      L.signed = true →
      unary_op UnOp.Neg (Scalar.Bits v L.size) L
        = Except.ok (Scalar.Bits
            (truncate ((2 ^ 128 - v % 2 ^ 128) % 2 ^ 128) L) L.size)) ∧
    (∀ (v : Nat) (fty : FloatTy) (L : TyLayout), L.ty = Ty.float fty →
      L.size ≠ 0 →
      unary_op UnOp.Neg (Scalar.Bits v L.size) L
        = Except.ok (Scalar.Bits (fneg fty v) L.size)) := by
  refine ⟨?_, ?_, ?_, ?_⟩
  · intro b L hty
    cases b <;> simp [unary_op, hty, Scalar.from_bool, Scalar.to_bool]
  · intro v L hint hsz
    cases hty : L.ty <;> simp [hty, Ty.is_integral] at hint <;>
      simp [unary_op, hty, Ty.is_integral, Scalar.to_bits, hsz]
  · intro v L hint hsz hsg
    cases hty : L.ty <;> simp [hty, Ty.is_integral] at hint <;>
      simp [unary_op, hty, Ty.is_integral, Scalar.to_bits, hsz, hsg]
  · intro v fty L hty hsz
    simp [unary_op, hty, Scalar.to_bits, hsz]

/-- Witness for the amended C6: `Not` on the `u8` pattern 5 yields the bare
scalar 250. -/
theorem C6_witness :
    unary_op UnOp.Not (Scalar.Bits 5 1) ⟨Ty.uint 8, 1, false⟩
      = Except.ok (Scalar.Bits (truncate (u128_not 5) ⟨Ty.uint 8, 1, false⟩) 1) :=
  C6_unary_returns_bare_scalar.2.1 5 ⟨Ty.uint 8, 1, false⟩ (by decide) (by decide)

/-- Claim C10: on a signed integral layout of width `w`, `Neg` of a
truncated pattern `v` returns the twos-complement negation
`(2 ^ w - v) mod 2 ^ w`; in particular `Neg` of the minimum representable
pattern `2 ^ (w - 1)` returns that same pattern, succeeding with no overflow
or error indication. -/
theorem C10_neg_twos_complement (L : TyLayout) (v : Nat)
    (hint : L.ty.is_integral = true) (hs : L.signed = true)
    (hw : 8 * L.size ≤ 128) (hsz : L.size ≠ 0)
    (hv : v < 2 ^ (8 * L.size)) :
    unary_op UnOp.Neg (Scalar.Bits v L.size) L
      = Except.ok (Scalar.Bits ((2 ^ (8 * L.size) - v) % 2 ^ (8 * L.size))
          L.size) ∧
    unary_op UnOp.Neg (Scalar.Bits (2 ^ (8 * L.size - 1)) L.size) L
      = Except.ok (Scalar.Bits (2 ^ (8 * L.size - 1)) L.size) := by
  have key : ∀ u : Nat, u < 2 ^ (8 * L.size) →
      truncate ((2 ^ 128 - u % 2 ^ 128) % 2 ^ 128) L
        = (2 ^ (8 * L.size) - u) % 2 ^ (8 * L.size) := by
    intro u hu
    have hle : (2 : Nat) ^ (8 * L.size) ≤ 2 ^ 128 :=
      Nat.pow_le_pow_right (by norm_num) hw
    have humod : u % 2 ^ 128 = u := Nat.mod_eq_of_lt (lt_of_lt_of_le hu hle)
    unfold truncate
    rw [humod]
    rcases Nat.eq_zero_or_pos u with h0 | h0
    · subst h0
      simp
    · have hlt : 2 ^ 128 - u < 2 ^ 128 := by
        have := pow_pos (show 0 < 2 by norm_num) 128
        omega
      rw [Nat.mod_eq_of_lt hlt]
      obtain ⟨k, hk⟩ : 2 ^ (8 * L.size) ∣ 2 ^ 128 - 2 ^ (8 * L.size) :=
        Nat.dvd_sub' (pow_dvd_pow 2 hw) dvd_rfl
      have hsplit : 2 ^ 128 - u
          = 2 ^ (8 * L.size) * k + (2 ^ (8 * L.size) - u) := by omega
      rw [hsplit, Nat.mul_add_mod]
  constructor
  · have h := key v hv
    norm_num at h
    cases hty : L.ty <;> simp [hty, Ty.is_integral] at hint <;>
      simp [unary_op, hty, Ty.is_integral, Scalar.to_bits, hsz, hs, h]
  · have hlt : 2 ^ (8 * L.size - 1) < 2 ^ (8 * L.size) :=
      Nat.pow_lt_pow_right (by norm_num) (by omega)
    have h := key _ hlt
    have h2 : 2 ^ (8 * L.size - 1) * 2 = 2 ^ (8 * L.size) :=
      two_pow_split _ (by omega)
    have hmin : (2 ^ (8 * L.size) - 2 ^ (8 * L.size - 1)) % 2 ^ (8 * L.size)
        = 2 ^ (8 * L.size - 1) := by
      have : 2 ^ (8 * L.size) - 2 ^ (8 * L.size - 1) = 2 ^ (8 * L.size - 1) := by
        omega
      rw [this, Nat.mod_eq_of_lt hlt]
    rw [hmin] at h
    norm_num at h
    cases hty : L.ty <;> simp [hty, Ty.is_integral] at hint <;>
      simp [unary_op, hty, Ty.is_integral, Scalar.to_bits, hsz, hs, h]

/-- NaN is equal to nothing. -/
theorem FP.feq_nan {a b : FP} (h : a.isNaN = true ∨ b.isNaN = true) :
    FP.feq a b = false := by
  cases a <;> cases b <;> first | rfl | simp [FP.isNaN] at h

/-- NaN is ordered below nothing and above nothing. -/
theorem FP.flt_nan {a b : FP} (h : a.isNaN = true ∨ b.isNaN = true) :
    FP.flt a b = false := by
  cases a <;> cases b <;> first | rfl | simp [FP.isNaN] at h

/-- NaN is not `≤` anything, nor is anything `≤` NaN. -/
theorem FP.fle_nan {a b : FP} (h : a.isNaN = true ∨ b.isNaN = true) :
    FP.fle a b = false := by
  rw [FP.fle, FP.flt_nan h, FP.feq_nan h]
  rfl

/-- Claim C5: the comparisons of the float evaluator follow IEEE-754 semantics in
both formats — a NaN operand makes `Eq` false and `Ne` true and all four
ordering comparisons false, and `-0.0` compares equal to `+0.0` (patterns
`2 ^ 31` / `2 ^ 63` against 0). -/
theorem C5_float_ieee_comparisons (arith : BinOp → FloatTy → Nat → Nat → Nat)
    (fty : FloatTy) (l r : Nat) :
    (FP.isNaN (fdecode fty l) = true ∨ FP.isNaN (fdecode fty r) = true →
      binary_float_op arith BinOp.Eq fty l r
          = Except.ok (Scalar.from_bool false, false) ∧
      binary_float_op arith BinOp.Ne fty l r
          = Except.ok (Scalar.from_bool true, false) ∧
      binary_float_op arith BinOp.Lt fty l r
          = Except.ok (Scalar.from_bool false, false) ∧
      binary_float_op arith BinOp.Le fty l r
          = Except.ok (Scalar.from_bool false, false) ∧
      binary_float_op arith BinOp.Gt fty l r
          = Except.ok (Scalar.from_bool false, false) ∧
      binary_float_op arith BinOp.Ge fty l r
          = Except.ok (Scalar.from_bool false, false)) ∧
    binary_float_op arith BinOp.Eq FloatTy.F32 (2 ^ 31) 0
      = Except.ok (Scalar.from_bool true, false) ∧
    binary_float_op arith BinOp.Eq FloatTy.F64 (2 ^ 63) 0
      = Except.ok (Scalar.from_bool true, false) := by
  refine ⟨?_, ?_, ?_⟩
  · intro h
    refine ⟨?_, ?_, ?_, ?_, ?_, ?_⟩ <;>
      simp [binary_float_op, FP.feq_nan h, FP.flt_nan h, FP.fle_nan h,
        FP.feq_nan (Or.symm h), FP.flt_nan (Or.symm h), FP.fle_nan (Or.symm h)]
  · simp only [binary_float_op]
    decide
  · simp only [binary_float_op]
    decide

/-- Witness for C5 at the f32 quiet-NaN pattern 0x7FC00000 against 0. -/
theorem C5_witness :
    (FP.isNaN (fdecode FloatTy.F32 2143289344) = true ∨
      FP.isNaN (fdecode FloatTy.F32 0) = true) ∧
    binary_float_op (fun _ _ _ _ => 0) BinOp.Eq FloatTy.F32 2143289344 0
      = Except.ok (Scalar.from_bool false, false) ∧
    binary_float_op (fun _ _ _ _ => 0) BinOp.Ne FloatTy.F32 2143289344 0
      = Except.ok (Scalar.from_bool true, false) :=
  ⟨Or.inl (by decide),
   ((C5_float_ieee_comparisons (fun _ _ _ _ => 0) FloatTy.F32 2143289344 0).1
      (Or.inl (by decide))).1,
   ((C5_float_ieee_comparisons (fun _ _ _ _ => 0) FloatTy.F32 2143289344 0).1
      (Or.inl (by decide))).2.1⟩

/-- Claim C8: comparisons (on char, bool, float or integer operands), bitwise
operators (on bool or integer operands) and all float operations return
`overflow = false` whenever they succeed. -/
theorem C8_flag_false_cmp_bitwise_float :
    (∀ (op : BinOp) (l r : Nat) (res : Scalar × Bool),
        binary_char_op op l r = Except.ok res → res.2 = false) ∧
    (∀ (op : BinOp) (l r : Bool) (res : Scalar × Bool),
        binary_bool_op op l r = Except.ok res → res.2 = false) ∧
    (∀ (arith : BinOp → FloatTy → Nat → Nat → Nat) (op : BinOp)
        (fty : FloatTy) (l r : Nat) (res : Scalar × Bool),
        binary_float_op arith op fty l r = Except.ok res → res.2 = false) ∧
    (∀ (op : BinOp) (l r : Nat) (ll rl : TyLayout) (res : Scalar × Bool),
        (op = BinOp.Eq ∨ op = BinOp.Ne ∨ op = BinOp.Lt ∨ op = BinOp.Le ∨
          op = BinOp.Gt ∨ op = BinOp.Ge ∨ op = BinOp.BitAnd ∨
          op = BinOp.BitOr ∨ op = BinOp.BitXor) →
        binary_int_op op l ll r rl = Except.ok res → res.2 = false) := by
  refine ⟨?_, ?_, ?_, ?_⟩
  · intro op l r res h
    cases op <;> simp [binary_char_op] at h <;> simp [← h]
  · intro op l r res h
    cases op <;> simp [binary_bool_op] at h <;> simp [← h]
  · intro arith op fty l r res h
    cases op <;> simp [binary_float_op] at h <;> simp [← h]
  · intro op l r ll rl res hop h
    rcases hop with rfl | rfl | rfl | rfl | rfl | rfl | rfl | rfl | rfl <;>
      by_cases hty : ll.ty = rl.ty <;> by_cases hs : ll.signed <;>
        simp [binary_int_op, hty, hs] at h <;> simp [← h]

/-- Witness for C8: unsigned `Eq` at equal operands succeeds with flag
false. -/
theorem C8_witness :
    binary_int_op BinOp.Eq 7 ⟨Ty.uint 8, 1, false⟩ 7 ⟨Ty.uint 8, 1, false⟩
      = Except.ok (Scalar.from_bool true, false) ∧
    ((Scalar.from_bool true, false) : Scalar × Bool).2 = false :=
  ⟨by decide,
   C8_flag_false_cmp_bitwise_float.2.2.2 BinOp.Eq 7 7 ⟨Ty.uint 8, 1, false⟩
     ⟨Ty.uint 8, 1, false⟩ (Scalar.from_bool true, false) (Or.inl rfl)
     (by decide)⟩

/-- The shift overflow flag the code computes from the low 32 bits of the
right operand agrees with the specified one whenever the left width divides
`2 ^ 32`. -/
theorem shift_oflo_code (r w : Nat) (hle : w ≤ 2 ^ 32) :
    (decide (r % 2 ^ 32 ≠ r) || decide (w ≤ r % 2 ^ 32)) = shift_oflo r w := by
  rw [shift_oflo, ← Bool.decide_or]
  apply decide_eq_decide.mpr
  rcases Nat.lt_or_ge r (2 ^ 32) with hr | hr
  · rw [Nat.mod_eq_of_lt hr]
    omega
  · have hm : r % 2 ^ 32 < 2 ^ 32 := Nat.mod_lt _ (by norm_num)
    omega

/-- The effective shift amount the code uses agrees with the specified
`r mod w` normalization whenever the left width divides `2 ^ 32`. -/
theorem shift_amount_code (r w : Nat) (hdvd : w ∣ 2 ^ 32) (hle : w ≤ 2 ^ 32) :
    (if (decide (r % 2 ^ 32 ≠ r) || decide (w ≤ r % 2 ^ 32)) = true
      then r % 2 ^ 32 % w else r % 2 ^ 32) = shift_amount r w := by
  rw [shift_oflo_code r w hle, shift_amount]
  by_cases h : shift_oflo r w = true
  · rw [if_pos h, if_pos h, Nat.mod_mod_of_dvd r hdvd]
  · rw [if_neg h, if_neg h]
    have hr : r < 2 ^ 32 := by
      by_contra hc
      exact h (by simp [shift_oflo]; omega)
    exact Nat.mod_eq_of_lt hr

/-- Claim C4: for `Shl` / `Shr` with left bit width `w`, the overflow flag is
true iff the right operand does not fit in 32 bits or is at least `w`; the
effective shift amount is `r mod w` whenever that holds (`r` itself
otherwise), and the returned value is the corresponding shift result —
arithmetic on the sign-extended operand when the left layout is signed,
logical otherwise — truncated to `w` bits. -/
theorem C4_shift_normalization (op : BinOp) (ll rl : TyLayout) (l r : Nat)
    (hop : op = BinOp.Shl ∨ op = BinOp.Shr)
    (hsz : ll.size = 1 ∨ ll.size = 2 ∨ ll.size = 4 ∨ ll.size = 8 ∨
      ll.size = 16) :
    binary_int_op op l ll r rl
      = Except.ok (Scalar.Bits (truncate
            (shift_result op ll l (shift_amount r (8 * ll.size))) ll)
          ll.size, shift_oflo r (8 * ll.size)) := by
  obtain ⟨ty, sz, sg⟩ := ll
  simp only at hsz
  have hdvd : 8 * sz ∣ 2 ^ 32 := by
    rcases hsz with rfl | rfl | rfl | rfl | rfl <;> norm_num
  have hle : 8 * sz ≤ 2 ^ 32 := by
    rcases hsz with rfl | rfl | rfl | rfl | rfl <;> norm_num
  have ha := shift_amount_code r (8 * sz) hdvd hle
  have ho := shift_oflo_code r (8 * sz) hle
  rcases hop with rfl | rfl <;> cases sg <;>
    simp only [binary_int_op, reduceCtorEq, or_self, or_true, true_or,
      if_true, if_false, reduceIte, shift_result] <;>
    simp only [TyLayout.size, TyLayout.signed] at ha ho ⊢ <;>
    rw [ha, ho] <;> simp [shift_result]

/-- Witness for C4: `Shl` of 1 by 40 at the `u32` layout overflows with
effective shift 8. -/
theorem C4_witness :
    binary_int_op BinOp.Shl 1 ⟨Ty.uint 32, 4, false⟩ 40 ⟨Ty.uint 8, 1, false⟩
      = Except.ok (Scalar.Bits (truncate
            (shift_result BinOp.Shl ⟨Ty.uint 32, 4, false⟩ 1
              (shift_amount 40 (8 * 4))) ⟨Ty.uint 32, 4, false⟩) 4,
          shift_oflo 40 (8 * 4)) :=
  C4_shift_normalization BinOp.Shl ⟨Ty.uint 32, 4, false⟩ ⟨Ty.uint 8, 1, false⟩
    1 40 (Or.inl rfl) (by norm_num)

theorem ok_pair_bits {v : Scalar} {fl : Bool} {b s : Nat} {o : Bool}
    (h : (Except.ok (v, fl) : Except EvalError (Scalar × Bool))
      = Except.ok (Scalar.Bits b s, o)) :
    v = Scalar.Bits b s := by
  simp only [Except.ok.injEq, Prod.mk.injEq] at h
  exact h.1

theorem ok_bits {v : Scalar} {b s : Nat}
    (h : (Except.ok v : Except EvalError Scalar) = Except.ok (Scalar.Bits b s)) :
    v = Scalar.Bits b s := by
  simpa using h

theorem bits_fits {X sz b s : Nat} (h : Scalar.Bits X sz = Scalar.Bits b s)
    (hX : X < 2 ^ (8 * sz)) : b < 2 ^ (8 * s) := by
  injection h with h1 h2
  subst h1
  subst h2
  exact hX

theorem from_bool_fits {x : Bool} {b s : Nat}
    (h : Scalar.from_bool x = Scalar.Bits b s) : b < 2 ^ (8 * s) := by
  refine bits_fits h ?_
  cases x <;> norm_num

theorem lor_fits {a b n : Nat} (ha : a < 2 ^ n) (hb : b < 2 ^ n) :
    a ||| b < 2 ^ n := by
  simpa [HOr.hOr, OrOp.or, Nat.lor] using Nat.bitwise_lt (f := or) ha hb

theorem land_fits {a b n : Nat} (ha : a < 2 ^ n) (hb : b < 2 ^ n) :
    a &&& b < 2 ^ n := by
  simpa [HAnd.hAnd, AndOp.and, Nat.land] using Nat.bitwise_lt (f := and) ha hb

theorem xor_fits {a b n : Nat} (ha : a < 2 ^ n) (hb : b < 2 ^ n) :
    a ^^^ b < 2 ^ n := by
  simpa [HXor.hXor, Xor.xor, Nat.xor] using Nat.bitwise_lt (f := bne) ha hb

/-- Claim C7: every raw bit pattern the evaluator returns fits within its
declared `size * 8` bits — the shift path, the signed and unsigned arithmetic
paths, the bitwise results (untruncated but computed from already-truncated
inputs), and the integer unary results — given truncated inputs and a layout
resolver that assigns equal types equal layouts. -/
theorem C7_results_truncated :
    (∀ (op : BinOp) (l r : Nat) (ll rl : TyLayout) (b s : Nat) (o : Bool),
      1 ≤ ll.size →
      l < 2 ^ (8 * ll.size) → r < 2 ^ (8 * rl.size) →
      (ll.ty = rl.ty → ll = rl) →
      binary_int_op op l ll r rl = Except.ok (Scalar.Bits b s, o) →
      b < 2 ^ (8 * s)) ∧
    (∀ (un : UnOp) (val : Scalar) (L : TyLayout) (b s : Nat),
      L.ty.is_integral = true →
      unary_op un val L = Except.ok (Scalar.Bits b s) →
      b < 2 ^ (8 * s)) := by
  constructor
  · intro op l r ll rl b s o h1 hl hr hcons heq
    simp only [binary_int_op] at heq
    split at heq
    · exact bits_fits (ok_pair_bits heq) (truncate_lt _ _)
    · split at heq
      · exact absurd heq (by simp)
      next hty =>
        have hll : ll = rl := hcons (not_not.mp hty)
        subst hll
        split at heq
        · exact from_bool_fits (ok_pair_bits heq)
        · split at heq
          · split at heq
            · exact absurd heq (by simp)
            · split at heq
              · exact absurd heq (by simp)
              · split at heq
                · exact bits_fits (ok_pair_bits heq) hl
                · exact bits_fits (ok_pair_bits heq) (truncate_lt _ _)
          · split at heq
            · exact from_bool_fits (ok_pair_bits heq)
            · exact from_bool_fits (ok_pair_bits heq)
            · exact from_bool_fits (ok_pair_bits heq)
            · exact from_bool_fits (ok_pair_bits heq)
            · exact from_bool_fits (ok_pair_bits heq)
            · exact from_bool_fits (ok_pair_bits heq)
            · exact bits_fits (ok_pair_bits heq) (lor_fits hl hr)
            · exact bits_fits (ok_pair_bits heq) (land_fits hl hr)
            · exact bits_fits (ok_pair_bits heq) (xor_fits hl hr)
            · exact bits_fits (ok_pair_bits heq) (truncate_lt _ _)
            · exact bits_fits (ok_pair_bits heq) (truncate_lt _ _)
            · exact bits_fits (ok_pair_bits heq) (truncate_lt _ _)
            · split at heq
              · exact absurd heq (by simp)
              · exact bits_fits (ok_pair_bits heq) (truncate_lt _ _)
            · split at heq
              · exact absurd heq (by simp)
              · exact bits_fits (ok_pair_bits heq) (truncate_lt _ _)
            · exact absurd heq (by simp)
  · intro un val L b s hint heq
    unfold unary_op at heq
    split at heq
    next hbool =>
      rw [hbool] at hint
      simp [Ty.is_integral] at hint
    next fty hfloat =>
      rw [hfloat] at hint
      simp [Ty.is_integral] at hint
    next =>
      rw [if_pos hint] at heq
      split at heq
      · exact absurd heq (by simp)
      · split at heq
        · exact bits_fits (ok_bits heq) (truncate_lt _ _)
        · split at heq
          · exact bits_fits (ok_bits heq) (truncate_lt _ _)
          · exact absurd heq (by simp)

/-- Witness for C7: the `BitOr` result at truncated `u8` operands fits in 8
bits. -/
theorem C7_witness :
    binary_int_op BinOp.BitOr 5 ⟨Ty.uint 8, 1, false⟩ 3 ⟨Ty.uint 8, 1, false⟩
      = Except.ok (Scalar.Bits 7 1, false) ∧ 7 < 2 ^ (8 * 1) :=
  ⟨by decide,
   C7_results_truncated.1 BinOp.BitOr 5 3 ⟨Ty.uint 8, 1, false⟩
     ⟨Ty.uint 8, 1, false⟩ 7 1 false (by norm_num) (by norm_num) (by norm_num)
     (by intro _; rfl) (by decide)⟩

/-- Witness for C10 at the `i8` layout: `Neg 5 = 251`, and `Neg` of the
minimum pattern 128 returns 128. -/
theorem C10_witness :
    unary_op UnOp.Neg (Scalar.Bits 5 1) ⟨Ty.int 8, 1, true⟩
        = Except.ok (Scalar.Bits ((2 ^ (8 * 1) - 5) % 2 ^ (8 * 1)) 1) ∧
    unary_op UnOp.Neg (Scalar.Bits (2 ^ (8 * 1 - 1)) 1) ⟨Ty.int 8, 1, true⟩
        = Except.ok (Scalar.Bits (2 ^ (8 * 1 - 1)) 1) :=
  C10_neg_twos_complement ⟨Ty.int 8, 1, true⟩ 5 (by decide) (by decide)
    (by decide) (by decide) (by decide)

end Operator
